import Mathlib

/-
Verification of the concentrator and sampler backend of the trace agent
(agent/concentrator.go), and of the sublayer computation pinned by
model/sublayers_test.go.

Machine integers (int64 nanosecond timestamps) are embedded as Int; Go
float64 scores are embedded as exact rationals (the constants involved,
1.125 = 9/8 and 0.01 = 1/100, are exactly representable). Go maps are
embedded as association lists; the Go runtime panic on closing a closed
channel is embedded as an Except error.
-/

/-- model.Span. Only the fields read by the embedded code are kept. Per the
spec (section 3), a span carries trace, span and parent identifiers, service,
type, start and duration nanoseconds, and a metrics map. -/
structure Span where
  traceID : Nat
  spanID : Nat
  parentID : Nat
  start : Int
  duration : Int
  service : String
  spanType : String
  metrics : List (String × Int)
  deriving DecidableEq, Repr

/-- Modelled from the spec: model.Span.End is not in src/; section 3 defines
the derived attribute End = Start + Duration. -/
def Span.endTs (s : Span) : Int :=
  s.start + s.duration

/-- Modelled from the spec: model.StatsBucket is not in src/; per section 3 a
bucket is tagged with its start nanosecond and width. The intra-bucket
aggregation performed by model.StatsBucket.HandleSpan is abstracted as
recording the handled (span, env) pairs, since no claim depends on the
aggregation internals. -/
structure StatsBucket where
  start : Int
  duration : Int
  handled : List (Span × String)
  deriving DecidableEq, Repr

/-- model.NewStatsBucket(ts, d): a fresh empty bucket tagged with start ts and
width d. -/
def newStatsBucket (ts d : Int) : StatsBucket :=
  { start := ts, duration := d, handled := [] }

/-- model.StatsBucket.HandleSpan, abstracted to recording the handled span. -/
def bucketHandleSpan (b : StatsBucket) (s : Span) (env : String) : StatsBucket :=
  { b with handled := b.handled ++ [(s, env)] }

/-- Go map lookup on an association list: the first binding of the key. -/
def mapLookup {α β : Type} [DecidableEq α] : List (α × β) → α → Option β
  | [], _ => none
  | p :: rest, k => if p.1 = k then some p.2 else mapLookup rest k

/-- Go map store on an association list: replace the first binding of the key,
or append a new binding when the key is absent. -/
def mapStore {α β : Type} [DecidableEq α] : List (α × β) → α → β → List (α × β)
  | [], k, v => [(k, v)]
  | p :: rest, k, v => if p.1 = k then (k, v) :: rest else p :: mapStore rest k v

/-- Concentrator state (agent/concentrator.go). The channels, the mutex and
the aggregator list are concurrency and aggregation plumbing that no claim
depends on; the bucket map and the two configuration durations (in
nanoseconds) are kept. -/
structure Concentrator where
  buckets : List (Int × StatsBucket)
  bucketInterval : Int
  oldestSpanCutoff : Int
  deriving DecidableEq, Repr

/-- Concentrator.roundToBucket: ts - ts % BucketInterval, with the Go
truncated remainder. -/
def roundToBucket (c : Concentrator) (ts : Int) : Int :=
  ts - ts.tmod c.bucketInterval

/-- The error returned by Concentrator.HandleNewSpan for a late span,
carrying the lateness in seconds as formatted by the source. -/
inductive ConcError where
  | lateSpan (lateBySeconds : Int)
  deriving DecidableEq, Repr

/-- Concentrator.HandleNewSpan. Returns the error-or-unit result, the new
concentrator state, and the list of statsd counters emitted during the call.
The span is rejected when now > end + OldestSpanCutoff; otherwise the bucket
keyed by roundToBucket(end) is fetched (created on demand) and the span is
handed to it. -/
def handleNewSpan (c : Concentrator) (s : Span) (env : String) (now : Int) :
    Except ConcError Unit × Concentrator × List String :=
  let e := s.endTs
  if now > e + c.oldestSpanCutoff then
    (Except.error (ConcError.lateSpan ((now - e).tdiv 1000000000)), c,
      ["trace_agent.concentrator.late_span"])
  else
    let bucketTs := roundToBucket c e
    let b :=
      match mapLookup c.buckets bucketTs with
      | some b => b
      | none => newStatsBucket bucketTs c.bucketInterval
    (Except.ok (),
      { c with buckets := mapStore c.buckets bucketTs (bucketHandleSpan b s env) }, [])

theorem mapLookup_store_self {α β : Type} [DecidableEq α] (m : List (α × β)) (k : α) (v : β) :
    mapLookup (mapStore m k v) k = some v := by
  induction m with
  | nil => simp [mapStore, mapLookup]
  | cons p rest ih =>
    by_cases h : p.1 = k
    · simp [mapStore, h, mapLookup]
    · simp [mapStore, h, mapLookup, ih]

theorem mapLookup_store_other {α β : Type} [DecidableEq α] (m : List (α × β)) (k k' : α)
    (v : β) (hk : k' ≠ k) : mapLookup (mapStore m k v) k' = mapLookup m k' :=  by
  have hk' : ¬ k = k' := fun h => hk h.symm
  induction m with
  | nil => simp [mapStore, mapLookup, hk']
  | cons p rest ih =>
    by_cases h : p.1 = k
    · rw [mapStore, if_pos h, mapLookup, if_neg hk', mapLookup, h, if_neg hk']
    · rw [mapStore, if_neg h, mapLookup, mapLookup, ih]

theorem mapLookup_mem {α β : Type} [DecidableEq α] (m : List (α × β)) (k : α) (v : β)
    (h : mapLookup m k = some v) : (k, v) ∈ m := by
  induction m with
  | nil => simp [mapLookup] at h
  | cons p rest ih =>
    obtain ⟨a, w⟩ := p
    by_cases hp : a = k
    · simp only [mapLookup, hp, if_pos] at h
      subst hp
      injection h with h
      subst h
      exact List.mem_cons_self _ _
    · simp only [mapLookup, if_neg hp] at h
      exact List.mem_cons_of_mem _ (ih h)

theorem mapLookup_isSome_of_mem_keys {α β : Type} [DecidableEq α] (m : List (α × β)) (k : α)
    (h : k ∈ m.map Prod.fst) : ∃ v, mapLookup m k = some v := by
  induction m with
  | nil => simp at h
  | cons p rest ih =>
    by_cases hp : p.1 = k
    · exact ⟨p.2, by simp [mapLookup, hp]⟩
    · have hr : k ∈ rest.map Prod.fst := by
        simp only [List.map_cons, List.mem_cons] at h
        rcases h with h | h
        · exact absurd h.symm hp
        · exact h
      obtain ⟨v, hv⟩ := ih hr
      exact ⟨v, by simp [mapLookup, hp, hv]⟩

theorem handleNewSpan_of_late (c : Concentrator) (s : Span) (env : String) (now : Int)
    (h : now > s.endTs + c.oldestSpanCutoff) :
    handleNewSpan c s env now =
      (Except.error (ConcError.lateSpan ((now - s.endTs).tdiv 1000000000)), c,
        ["trace_agent.concentrator.late_span"]) := by
  simp [handleNewSpan, h]

theorem handleNewSpan_of_ok (c : Concentrator) (s : Span) (env : String) (now : Int)
    (h : ¬ now > s.endTs + c.oldestSpanCutoff) :
    handleNewSpan c s env now =
      (Except.ok (),
        { c with buckets := (mapStore c.buckets (roundToBucket c s.endTs)
            (bucketHandleSpan
              ((mapLookup c.buckets (roundToBucket c s.endTs)).getD
                (newStatsBucket (roundToBucket c s.endTs) c.bucketInterval)) s env)) }, []) := by
  simp only [handleNewSpan, if_neg h]
  cases hl : mapLookup c.buckets (roundToBucket c s.endTs) <;> simp [hl]

/-- C1: HandleNewSpan(span, env) fails, returning a LateSpan error and
emitting the trace_agent.concentrator.late_span counter, if and only if
now - span.End > oldest_span_cutoff at the time of the call; on rejection the
bucket map is unchanged, and otherwise the span is routed into the bucket
keyed by roundToBucket(span.End), which is created on demand if absent, all
other buckets being untouched. -/
theorem handleNewSpan_lateness_gate (c : Concentrator) (s : Span) (env : String) (now : Int) :
    (((handleNewSpan c s env now).1 = Except.ok ()) ↔ ¬ now - s.endTs > c.oldestSpanCutoff)
    ∧ (now - s.endTs > c.oldestSpanCutoff →
        (handleNewSpan c s env now).1 =
            Except.error (ConcError.lateSpan ((now - s.endTs).tdiv 1000000000))
        ∧ (handleNewSpan c s env now).2.1 = c
        ∧ (handleNewSpan c s env now).2.2 = ["trace_agent.concentrator.late_span"])
    ∧ (¬ now - s.endTs > c.oldestSpanCutoff →
        (handleNewSpan c s env now).2.2 = []
        ∧ mapLookup (handleNewSpan c s env now).2.1.buckets (roundToBucket c s.endTs) =
            some (bucketHandleSpan
              ((mapLookup c.buckets (roundToBucket c s.endTs)).getD
                (newStatsBucket (roundToBucket c s.endTs) c.bucketInterval)) s env)
        ∧ ∀ k, k ≠ roundToBucket c s.endTs →
            mapLookup (handleNewSpan c s env now).2.1.buckets k = mapLookup c.buckets k) := by
  have hiff : now - s.endTs > c.oldestSpanCutoff ↔ now > s.endTs + c.oldestSpanCutoff := by omega
  by_cases h : now > s.endTs + c.oldestSpanCutoff
  · rw [handleNewSpan_of_late c s env now h]
    refine ⟨by simp [hiff, h], fun _ => by simp, fun hc => absurd (hiff.mpr h) hc⟩
  · rw [handleNewSpan_of_ok c s env now h]
    refine ⟨by simp [hiff, h], fun hc => absurd (hiff.mp hc) h, fun _ => ?_⟩
    refine ⟨rfl, ?_, ?_⟩
    · simp [mapLookup_store_self]
    · intro k hk
      simp [mapLookup_store_other _ _ _ _ hk]

theorem handleNewSpan_lateness_gate_witness :
    let c : Concentrator := { buckets := [], bucketInterval := 10, oldestSpanCutoff := 60 }
    let s : Span := { traceID := 1, spanID := 1, parentID := 0, start := 3, duration := 4,
                      service := "web", spanType := "web", metrics := [] }
    ((handleNewSpan c s "none" 100).1 = Except.ok ()) ↔ ¬ (100 : Int) - s.endTs > c.oldestSpanCutoff := by
  intro c s
  exact (handleNewSpan_lateness_gate c s "none" 100).1

theorem tmod_bucket_bounds (a b : Int) (ha : 0 ≤ a) (hb : 0 < b) :
    a - a.tmod b ≤ a ∧ a < (a - a.tmod b) + b := by
  rw [Int.tmod_eq_emod ha (le_of_lt hb)]
  have h1 := Int.emod_nonneg a (ne_of_gt hb)
  have h2 := Int.emod_lt_of_pos a hb
  omega

/-- C3: every span accepted by HandleNewSpan is placed in a bucket B with
B.start = span.End - (span.End mod bucket_ns), and that start satisfies
B.start ≤ span.End < B.start + bucket_ns. -/
theorem handleNewSpan_bucket_containment (c : Concentrator) (s : Span) (env : String)
    (now : Int) (hb : 0 < c.bucketInterval) (hend : 0 ≤ s.endTs)
    (hstart : ∀ p ∈ c.buckets, p.2.start = p.1)
    (hacc : (handleNewSpan c s env now).1 = Except.ok ()) :
    ∃ b, mapLookup (handleNewSpan c s env now).2.1.buckets (roundToBucket c s.endTs) = some b
      ∧ b.start = s.endTs - (s.endTs).tmod c.bucketInterval
      ∧ b.start ≤ s.endTs ∧ s.endTs < b.start + c.bucketInterval := by
  have h : ¬ now > s.endTs + c.oldestSpanCutoff := by
    by_contra hlate
    rw [handleNewSpan_of_late c s env now hlate] at hacc
    simp at hacc
  rw [handleNewSpan_of_ok c s env now h]
  have hbs : ((mapLookup c.buckets (roundToBucket c s.endTs)).getD
      (newStatsBucket (roundToBucket c s.endTs) c.bucketInterval)).start =
      roundToBucket c s.endTs := by
    cases hl : mapLookup c.buckets (roundToBucket c s.endTs) with
    | none => simp [newStatsBucket]
    | some b0 =>
      simp only [Option.getD_some]
      exact hstart _ (mapLookup_mem _ _ _ hl)
  have hb1 : (bucketHandleSpan
      ((mapLookup c.buckets (roundToBucket c s.endTs)).getD
        (newStatsBucket (roundToBucket c s.endTs) c.bucketInterval)) s env).start =
      roundToBucket c s.endTs := by
    simpa [bucketHandleSpan] using hbs
  have hbounds := tmod_bucket_bounds s.endTs c.bucketInterval hend hb
  refine ⟨bucketHandleSpan
      ((mapLookup c.buckets (roundToBucket c s.endTs)).getD
        (newStatsBucket (roundToBucket c s.endTs) c.bucketInterval)) s env,
      mapLookup_store_self _ _ _, ?_, ?_, ?_⟩
  · rw [hb1, roundToBucket]
  · rw [hb1, roundToBucket]
    exact hbounds.1
  · rw [hb1, roundToBucket]
    exact hbounds.2

theorem handleNewSpan_bucket_containment_witness :
    let c : Concentrator := { buckets := [], bucketInterval := 10, oldestSpanCutoff := 60 }
    let s : Span := { traceID := 1, spanID := 1, parentID := 0, start := 3, duration := 4,
                      service := "web", spanType := "web", metrics := [] }
    ∃ b, mapLookup (handleNewSpan c s "none" 50).2.1.buckets (roundToBucket c s.endTs) = some b
      ∧ b.start = s.endTs - (s.endTs).tmod c.bucketInterval
      ∧ b.start ≤ s.endTs ∧ s.endTs < b.start + c.bucketInterval := by
  intro c s
  exact handleNewSpan_bucket_containment c s "none" 50 (by decide) (by decide)
    (by intro p hp; simp at hp) (by norm_num [handleNewSpan, Span.endTs])

/-- Concentrator.Flush. The bucket timestamps are sorted ascending; every
bucket with ts < now - OldestSpanCutoff and ts < roundToBucket(now) (the start
of the current live bucket) is appended to the result and deleted from the
map. -/
def flush (c : Concentrator) (now : Int) : List StatsBucket × Concentrator :=
  ((List.insertionSort (fun a b => a ≤ b) (c.buckets.map Prod.fst)).filterMap
      (fun ts => if ts < now - c.oldestSpanCutoff ∧ ts < roundToBucket c now
        then mapLookup c.buckets ts else none),
    { c with buckets := (c.buckets.filter
        (fun p => !(decide (p.1 < now - c.oldestSpanCutoff ∧ p.1 < roundToBucket c now)))) })

theorem lastBucket_eq_floor (c : Concentrator) (now : Int) (hn : 0 ≤ now)
    (hb : 0 < c.bucketInterval) :
    roundToBucket c now = c.bucketInterval * (now / c.bucketInterval) := by
  rw [roundToBucket, Int.tmod_eq_emod hn (le_of_lt hb)]
  have := Int.ediv_add_emod now c.bucketInterval
  omega

theorem flush_map_start (c : Concentrator) (now : Int)
    (hstart : ∀ p ∈ c.buckets, p.2.start = p.1) (l : List Int)
    (hsub : ∀ ts ∈ l, ts ∈ c.buckets.map Prod.fst) :
    ((l.filterMap (fun ts => if ts < now - c.oldestSpanCutoff ∧ ts < roundToBucket c now
        then mapLookup c.buckets ts else none)).map StatsBucket.start) =
      l.filter (fun ts =>
        decide (ts < now - c.oldestSpanCutoff ∧ ts < roundToBucket c now)) := by
  induction l with
  | nil => simp
  | cons a rest ih =>
    have hrest : ∀ ts ∈ rest, ts ∈ c.buckets.map Prod.fst :=
      fun ts hts => hsub ts (List.mem_cons_of_mem _ hts)
    by_cases hcond : a < now - c.oldestSpanCutoff ∧ a < roundToBucket c now
    · obtain ⟨v, hv⟩ := mapLookup_isSome_of_mem_keys _ _ (hsub a (List.mem_cons_self _ _))
      have hvs : v.start = a := hstart _ (mapLookup_mem _ _ _ hv)
      rw [List.filterMap_cons_some (by rw [if_pos hcond]; exact hv),
        List.map_cons, hvs, ih hrest, List.filter_cons_of_pos (by simpa using hcond)]
    · rw [List.filterMap_cons_none (by rw [if_neg hcond]), ih hrest,
        List.filter_cons_of_neg (by simpa using hcond)]

/-- C2: Flush removes from the bucket map and returns exactly the buckets
whose start ts satisfies ts < now - oldest_span_cutoff and
ts < floor(now / bucket_ns) * bucket_ns; the returned buckets are in
ascending start order, the remaining timestamps are a subset of the pre-flush
ones, and every bucket failing the condition stays in the map. -/
theorem flush_spec (c : Concentrator) (now : Int) (hn : 0 ≤ now)
    (hb : 0 < c.bucketInterval) (hstart : ∀ p ∈ c.buckets, p.2.start = p.1) :
    (∀ ts, (∃ bkt ∈ (flush c now).1, bkt.start = ts) ↔
        ((∃ bkt, (ts, bkt) ∈ c.buckets)
          ∧ ts < now - c.oldestSpanCutoff
          ∧ ts < c.bucketInterval * (now / c.bucketInterval)))
    ∧ ((flush c now).1.map StatsBucket.start).Sorted (· ≤ ·)
    ∧ (∀ ts ∈ (flush c now).2.buckets.map Prod.fst, ts ∈ c.buckets.map Prod.fst)
    ∧ (∀ p ∈ c.buckets,
        ¬ (p.1 < now - c.oldestSpanCutoff
            ∧ p.1 < c.bucketInterval * (now / c.bucketInterval)) →
          p ∈ (flush c now).2.buckets)
    ∧ (∀ p ∈ (flush c now).2.buckets,
        ¬ (p.1 < now - c.oldestSpanCutoff
            ∧ p.1 < c.bucketInterval * (now / c.bucketInterval))) := by
  have hfloor := lastBucket_eq_floor c now hn hb
  refine ⟨?_, ?_, ?_, ?_, ?_⟩
  · intro ts
    constructor
    · rintro ⟨bkt, hmem, rfl⟩
      simp only [flush, List.mem_filterMap] at hmem
      obtain ⟨ts', hts', hg⟩ := hmem
      by_cases hcond : ts' < now - c.oldestSpanCutoff ∧ ts' < roundToBucket c now
      · rw [if_pos hcond] at hg
        have hpair := mapLookup_mem _ _ _ hg
        have hbs : bkt.start = ts' := hstart _ hpair
        rw [hbs]
        exact ⟨⟨bkt, hpair⟩, hcond.1, by rw [← hfloor]; exact hcond.2⟩
      · rw [if_neg hcond] at hg
        cases hg
    · rintro ⟨⟨bkt0, hmem0⟩, h1, h2⟩
      have hkey : ts ∈ c.buckets.map Prod.fst := List.mem_map_of_mem _ hmem0
      obtain ⟨v, hv⟩ := mapLookup_isSome_of_mem_keys _ _ hkey
      have hvs : v.start = ts := hstart _ (mapLookup_mem _ _ _ hv)
      refine ⟨v, ?_, hvs⟩
      simp only [flush, List.mem_filterMap]
      refine ⟨ts, ?_, ?_⟩
      · exact ((List.perm_insertionSort _ _).mem_iff).mpr hkey
      · rw [if_pos ⟨h1, by rw [hfloor]; exact h2⟩]
        exact hv
  · have hkeys : ∀ ts ∈ List.insertionSort (fun a b => a ≤ b) (c.buckets.map Prod.fst),
        ts ∈ c.buckets.map Prod.fst :=
      fun ts hts => ((List.perm_insertionSort _ _).mem_iff).mp hts
    show ((_ : List StatsBucket).map StatsBucket.start).Sorted (· ≤ ·)
    rw [show (flush c now).1 = (List.insertionSort (fun a b => a ≤ b)
        (c.buckets.map Prod.fst)).filterMap
        (fun ts => if ts < now - c.oldestSpanCutoff ∧ ts < roundToBucket c now
          then mapLookup c.buckets ts else none) from rfl]
    rw [flush_map_start c now hstart _ hkeys]
    exact List.Pairwise.sublist (List.filter_sublist _) (List.sorted_insertionSort _ _)
  · intro ts hts
    simp only [flush, List.mem_map] at hts
    obtain ⟨p, hp, rfl⟩ := hts
    exact List.mem_map_of_mem _ (List.mem_of_mem_filter hp)
  · intro p hp hnc
    have hnc' : ¬ (p.1 < now - c.oldestSpanCutoff ∧ p.1 < roundToBucket c now) := by
      rw [hfloor]
      exact hnc
    simp only [flush, List.mem_filter]
    refine ⟨hp, ?_⟩
    simp only [Bool.not_eq_true', decide_eq_false_iff_not]
    exact hnc'
  · intro p hp
    simp only [flush, List.mem_filter] at hp
    have h2 : ¬ (p.1 < now - c.oldestSpanCutoff ∧ p.1 < roundToBucket c now) := by
      simpa only [Bool.not_eq_true', decide_eq_false_iff_not] using hp.2
    rw [hfloor] at h2
    exact h2

theorem flush_spec_witness :
    let cW : Concentrator :=
      { buckets := [(0, newStatsBucket 0 10), (100, newStatsBucket 100 10)],
        bucketInterval := 10, oldestSpanCutoff := 60 }
    ((flush cW 150).1.map StatsBucket.start).Sorted (· ≤ ·) := by
  intro cW
  exact (flush_spec cW 150 (by decide) (by decide) (by decide)).2.1

/-- Signature: the 64-bit structural fingerprint of a trace used as the score
map key in the sampler. -/
abbrev Signature := Nat

/-- Modelled from the spec: the constant minSignatureScoreOffset is referenced
by Backend.DecayScore but defined outside src/; section 8 scenario S5 fixes
min_offset = 0.01 = 1/100. -/
def minSignatureScoreOffset : ℚ := 1 / 100

/-- Backend state (sampler). The float64 counters are embedded as exact
rationals; decayPeriod is kept in seconds. The exit channel is embedded as a
closed flag so the Go channel-close semantics of Stop can be stated. -/
structure Backend where
  scores : List (Signature × ℚ)
  totalScore : ℚ
  sampledScore : ℚ
  decayPeriod : ℚ
  decayFactor : ℚ
  countScaleFactor : ℚ
  exitClosed : Bool

/-- NewBackend(decayPeriod): decayFactor is hardcoded to 1.125 = 9/8 and
countScaleFactor = (decayFactor / (decayFactor - 1)) * decayPeriod seconds;
both 1.125 and the quotient 9 are exact in float64. -/
def newBackend (decayPeriod : ℚ) : Backend :=
  let decayFactor : ℚ := 9 / 8
  { scores := []
    totalScore := 0
    sampledScore := 0
    decayPeriod := decayPeriod
    decayFactor := decayFactor
    countScaleFactor := decayFactor / (decayFactor - 1) * decayPeriod
    exitClosed := false }

/-- Go map increment scores[sig]++ : bump the existing binding, or create a
binding with value 1 (the missing key reads as the zero value). -/
def bumpScore : List (Signature × ℚ) → Signature → List (Signature × ℚ)
  | [], sig => [(sig, 1)]
  | p :: rest, sig => if p.1 = sig then (p.1, p.2 + 1) :: rest else p :: bumpScore rest sig

/-- Backend.CountSignature: scores[sig]++ and totalScore++. -/
def countSignature (b : Backend) (sig : Signature) : Backend :=
  { b with scores := bumpScore b.scores sig, totalScore := b.totalScore + 1 }

/-- Backend.CountSample: sampledScore++. -/
def countSample (b : Backend) : Backend :=
  { b with sampledScore := b.sampledScore + 1 }

/-- Backend.GetSignatureScore: the score of the signature (a missing key reads
as 0) divided by countScaleFactor. The method only reads the map, so the
unchanged backend is returned alongside the score. -/
def getSignatureScore (b : Backend) (sig : Signature) : ℚ × Backend :=
  (((mapLookup b.scores sig).getD 0) / b.countScaleFactor, b)

/-- Backend.GetSampledScore. -/
def getSampledScore (b : Backend) : ℚ :=
  b.sampledScore / b.countScaleFactor

/-- Backend.GetTotalScore. -/
def getTotalScore (b : Backend) : ℚ :=
  b.totalScore / b.countScaleFactor

/-- Backend.GetUpperSampledScore: GetSampledScore times decayFactor. -/
def getUpperSampledScore (b : Backend) : ℚ :=
  getSampledScore b * b.decayFactor

/-- Backend.GetCardinality: the number of entries of the scores map. -/
def getCardinality (b : Backend) : Int :=
  (b.scores.length : Int)

/-- Backend.DecayScore: every signature whose score exceeds
decayFactor * minSignatureScoreOffset is divided by decayFactor, the others
are deleted; totalScore and sampledScore are divided by decayFactor. -/
def decayScore (b : Backend) : Backend :=
  { b with
    scores := b.scores.filterMap (fun p =>
      if p.2 > b.decayFactor * minSignatureScoreOffset
      then some (p.1, p.2 / b.decayFactor) else none)
    totalScore := b.totalScore / b.decayFactor
    sampledScore := b.sampledScore / b.decayFactor }

/-- Backend.Stop: close(b.exit). Closing an already-closed Go channel is a
runtime panic, embedded as an error result. -/
def stop (b : Backend) : Except String Backend :=
  if b.exitClosed then Except.error "close of closed channel"
  else Except.ok { b with exitClosed := true }

/-- Two Stop calls in sequence, propagating the outcome of either call. -/
def stopTwice (b : Backend) : Except String Backend :=
  match stop b with
  | Except.ok b1 => stop b1
  | Except.error e => Except.error e

/-- One mutating backend call, for quantifying over reachable states. -/
inductive SamplerOp where
  | count (sig : Signature)
  | sample
  | decay

/-- Apply one backend call. -/
def applyOp (b : Backend) : SamplerOp → Backend
  | SamplerOp.count sig => countSignature b sig
  | SamplerOp.sample => countSample b
  | SamplerOp.decay => decayScore b

/-- Apply a sequence of backend calls to a starting state. -/
def applyOps (b : Backend) (ops : List SamplerOp) : Backend :=
  ops.foldl applyOp b

/-- The sum of all signature scores of a backend. -/
def sumScores (b : Backend) : ℚ :=
  (b.scores.map Prod.snd).sum

theorem mapLookup_none_of_not_mem_keys {α β : Type} [DecidableEq α] (m : List (α × β)) (k : α)
    (h : k ∉ m.map Prod.fst) : mapLookup m k = none := by
  induction m with
  | nil => rfl
  | cons p rest ih =>
    simp only [List.map_cons, List.mem_cons] at h
    push_neg at h
    rw [mapLookup, if_neg (fun he => h.1 he.symm)]
    exact ih h.2

theorem not_mem_keys_of_mapLookup_none {α β : Type} [DecidableEq α] (m : List (α × β)) (k : α)
    (h : mapLookup m k = none) : k ∉ m.map Prod.fst := by
  intro hmem
  obtain ⟨v, hv⟩ := mapLookup_isSome_of_mem_keys m k hmem
  rw [h] at hv
  cases hv

theorem mem_keys_filterMap_decay (df mo : ℚ) (m : List (Signature × ℚ)) (k : Signature)
    (h : k ∈ (m.filterMap (fun p =>
        if p.2 > df * mo then some (p.1, p.2 / df) else none)).map Prod.fst) :
    k ∈ m.map Prod.fst := by
  simp only [List.mem_map, List.mem_filterMap] at h ⊢
  obtain ⟨q, ⟨p, hp, hg⟩, rfl⟩ := h
  by_cases hc : p.2 > df * mo
  · rw [if_pos hc] at hg
    cases hg
    exact ⟨p, hp, rfl⟩
  · rw [if_neg hc] at hg
    cases hg

theorem mapLookup_filterMap_decay_some (df mo : ℚ) (sig : Signature) :
    ∀ m : List (Signature × ℚ), (m.map Prod.fst).Nodup →
      ∀ w : ℚ, mapLookup m sig = some w →
        mapLookup (m.filterMap (fun p =>
            if p.2 > df * mo then some (p.1, p.2 / df) else none)) sig =
          (if w > df * mo then some (w / df) else none) := by
  intro m
  induction m with
  | nil => intro _ w hl; cases hl
  | cons p rest ih =>
    intro hnd w hl
    rw [List.map_cons, List.nodup_cons] at hnd
    obtain ⟨hp1, hnd'⟩ := hnd
    by_cases hk : p.1 = sig
    · subst hk
      rw [mapLookup, if_pos rfl] at hl
      injection hl with hl
      subst hl
      by_cases hc : p.2 > df * mo
      · rw [List.filterMap_cons_some (by rw [if_pos hc]), if_pos hc, mapLookup, if_pos rfl]
      · rw [List.filterMap_cons_none (by rw [if_neg hc]), if_neg hc]
        exact mapLookup_none_of_not_mem_keys _ _
          (fun hmem => hp1 (mem_keys_filterMap_decay df mo rest p.1 hmem))
    · rw [mapLookup, if_neg hk] at hl
      by_cases hc : p.2 > df * mo
      · rw [List.filterMap_cons_some (by rw [if_pos hc]), mapLookup, if_neg hk]
        exact ih hnd' w hl
      · rw [List.filterMap_cons_none (by rw [if_neg hc])]
        exact ih hnd' w hl

theorem mapLookup_filterMap_decay_none (df mo : ℚ) (sig : Signature)
    (m : List (Signature × ℚ)) (hl : mapLookup m sig = none) :
    mapLookup (m.filterMap (fun p =>
        if p.2 > df * mo then some (p.1, p.2 / df) else none)) sig = none := by
  apply mapLookup_none_of_not_mem_keys
  intro hmem
  exact not_mem_keys_of_mapLookup_none m sig hl (mem_keys_filterMap_decay df mo m sig hmem)

/-- C4: immediately after a single DecayScore call, every surviving signature
score equals its previous score divided by decayFactor, and totalScore and
sampledScore are divided by decayFactor, for any prior backend state. -/
theorem decayScore_contraction (b : Backend) (hnd : (b.scores.map Prod.fst).Nodup) :
    (decayScore b).totalScore = b.totalScore / b.decayFactor
    ∧ (decayScore b).sampledScore = b.sampledScore / b.decayFactor
    ∧ ∀ sig v, mapLookup (decayScore b).scores sig = some v →
        ∃ w, mapLookup b.scores sig = some w ∧ v = w / b.decayFactor := by
  refine ⟨rfl, rfl, ?_⟩
  intro sig v hv
  cases hl : mapLookup b.scores sig with
  | none =>
    rw [show (decayScore b).scores = b.scores.filterMap (fun p =>
        if p.2 > b.decayFactor * minSignatureScoreOffset
        then some (p.1, p.2 / b.decayFactor) else none) from rfl,
      mapLookup_filterMap_decay_none _ _ _ _ hl] at hv
    cases hv
  | some w =>
    rw [show (decayScore b).scores = b.scores.filterMap (fun p =>
        if p.2 > b.decayFactor * minSignatureScoreOffset
        then some (p.1, p.2 / b.decayFactor) else none) from rfl,
      mapLookup_filterMap_decay_some _ _ _ _ hnd w hl] at hv
    by_cases hc : w > b.decayFactor * minSignatureScoreOffset
    · rw [if_pos hc] at hv
      injection hv with hv
      exact ⟨w, rfl, hv.symm⟩
    · rw [if_neg hc] at hv
      cases hv

theorem decayScore_contraction_witness :
    let bW : Backend :=
      { scores := [(0, 1), (1, 1 / 100)], totalScore := 101 / 100, sampledScore := 2,
        decayPeriod := 1, decayFactor := 9 / 8, countScaleFactor := 9, exitClosed := false }
    (decayScore bW).totalScore = bW.totalScore / bW.decayFactor := by
  intro bW
  exact (decayScore_contraction bW (by decide)).1

theorem length_filterMap_decay (df mo : ℚ) (m : List (Signature × ℚ)) :
    (m.filterMap (fun p => if p.2 > df * mo then some (p.1, p.2 / df) else none)).length =
      (m.filter (fun p => decide (p.2 > df * mo))).length := by
  induction m with
  | nil => rfl
  | cons p rest ih =>
    by_cases hc : p.2 > df * mo
    · rw [List.filterMap_cons_some (by rw [if_pos hc]),
        List.filter_cons_of_pos (by simpa using hc)]
      simpa using ih
    · rw [List.filterMap_cons_none (by rw [if_neg hc]),
        List.filter_cons_of_neg (by simpa using hc)]
      exact ih

/-- C6: a DecayScore call removes a signature from the scores map exactly when
its pre-decay score is at most decayFactor * minSignatureScoreOffset, and
GetCardinality afterwards counts exactly the surviving signatures. -/
theorem decayScore_eviction (b : Backend) (hnd : (b.scores.map Prod.fst).Nodup) :
    (∀ sig, sig ∈ (decayScore b).scores.map Prod.fst ↔
        (∃ s, mapLookup b.scores sig = some s
          ∧ s > b.decayFactor * minSignatureScoreOffset))
    ∧ getCardinality (decayScore b) =
        ((b.scores.filter (fun p =>
            decide (p.2 > b.decayFactor * minSignatureScoreOffset))).length : Int) := by
  constructor
  · intro sig
    constructor
    · intro hmem
      obtain ⟨v, hv⟩ := mapLookup_isSome_of_mem_keys _ _ hmem
      cases hl : mapLookup b.scores sig with
      | none =>
        rw [show (decayScore b).scores = b.scores.filterMap (fun p =>
            if p.2 > b.decayFactor * minSignatureScoreOffset
            then some (p.1, p.2 / b.decayFactor) else none) from rfl,
          mapLookup_filterMap_decay_none _ _ _ _ hl] at hv
        cases hv
      | some w =>
        refine ⟨w, rfl, ?_⟩
        by_contra hc
        rw [show (decayScore b).scores = b.scores.filterMap (fun p =>
            if p.2 > b.decayFactor * minSignatureScoreOffset
            then some (p.1, p.2 / b.decayFactor) else none) from rfl,
          mapLookup_filterMap_decay_some _ _ _ _ hnd w hl, if_neg hc] at hv
        cases hv
    · rintro ⟨s, hl, hc⟩
      have hv : mapLookup (decayScore b).scores sig = some (s / b.decayFactor) := by
        rw [show (decayScore b).scores = b.scores.filterMap (fun p =>
            if p.2 > b.decayFactor * minSignatureScoreOffset
            then some (p.1, p.2 / b.decayFactor) else none) from rfl,
          mapLookup_filterMap_decay_some _ _ _ _ hnd s hl, if_pos hc]
      exact List.mem_map_of_mem _ (mapLookup_mem _ _ _ hv)
  · have h := length_filterMap_decay b.decayFactor minSignatureScoreOffset b.scores
    show ((b.scores.filterMap (fun p =>
        if p.2 > b.decayFactor * minSignatureScoreOffset
        then some (p.1, p.2 / b.decayFactor) else none)).length : Int) = _
    exact_mod_cast h

theorem decayScore_eviction_witness :
    let bW : Backend :=
      { scores := [(0, 1), (1, 1 / 100)], totalScore := 101 / 100, sampledScore := 0,
        decayPeriod := 1, decayFactor := 9 / 8, countScaleFactor := 9, exitClosed := false }
    ∀ sig, sig ∈ (decayScore bW).scores.map Prod.fst ↔
        (∃ s, mapLookup bW.scores sig = some s
          ∧ s > bW.decayFactor * minSignatureScoreOffset) := by
  intro bW
  exact (decayScore_eviction bW (by decide)).1

/-- C9: Backend.Stop closes the exit channel with no once-guard, so a second
Stop call closes an already-closed channel: a Go runtime panic rather than the
safe no-op required by the spec. -/
theorem stop_twice_panics :
    stopTwice (newBackend 1) = Except.error "close of closed channel" := rfl

/-- C10: GetSignatureScore of a signature absent from the scores map returns
exactly 0 and leaves the backend state unchanged; no entry is created by the
lookup. The countScaleFactor hypothesis pins the division 0 / c to the
nonzero-divisor case, matching the float64 evaluation which returns a zero
only when countScaleFactor is nonzero. -/
theorem getSignatureScore_absent (b : Backend) (sig : Signature)
    (habs : sig ∉ b.scores.map Prod.fst) (hcsf : b.countScaleFactor ≠ 0) :
    getSignatureScore b sig = (0, b) := by
  rw [getSignatureScore, mapLookup_none_of_not_mem_keys _ _ habs]
  simp

theorem getSignatureScore_absent_witness :
    getSignatureScore (newBackend 1) 0 = (0, newBackend 1) := by
  apply getSignatureScore_absent (newBackend 1) 0
  · simp [newBackend]
  · norm_num [newBackend]

theorem bumpScore_sum (m : List (Signature × ℚ)) (sig : Signature) :
    ((bumpScore m sig).map Prod.snd).sum = (m.map Prod.snd).sum + 1 := by
  induction m with
  | nil => simp [bumpScore]
  | cons p rest ih =>
    by_cases h : p.1 = sig
    · simp only [bumpScore, if_pos h, List.map_cons, List.sum_cons]
      ring
    · simp only [bumpScore, if_neg h, List.map_cons, List.sum_cons, ih]
      ring

theorem bumpScore_nonneg (m : List (Signature × ℚ)) (sig : Signature)
    (hpos : ∀ p ∈ m, 0 ≤ p.2) : ∀ p ∈ bumpScore m sig, 0 ≤ p.2 := by
  induction m with
  | nil =>
    intro p hp
    simp only [bumpScore, List.mem_singleton] at hp
    rw [hp]
    norm_num
  | cons q rest ih =>
    intro p hp
    by_cases h : q.1 = sig
    · rw [show bumpScore (q :: rest) sig = (q.1, q.2 + 1) :: rest from by
        simp only [bumpScore, if_pos h]] at hp
      rcases List.mem_cons.mp hp with h1 | h1
      · rw [h1]
        have := hpos q (List.mem_cons_self _ _)
        simp only
        linarith
      · exact hpos p (List.mem_cons_of_mem _ h1)
    · rw [show bumpScore (q :: rest) sig = q :: bumpScore rest sig from by
        simp only [bumpScore, if_neg h]] at hp
      rcases List.mem_cons.mp hp with h1 | h1
      · rw [h1]
        exact hpos q (List.mem_cons_self _ _)
      · exact ih (fun r hr => hpos r (List.mem_cons_of_mem _ hr)) p h1

theorem sum_filterMap_decay_le (df mo : ℚ) (hdf : 0 < df) (m : List (Signature × ℚ))
    (hpos : ∀ p ∈ m, 0 ≤ p.2) :
    ((m.filterMap (fun p => if p.2 > df * mo then some (p.1, p.2 / df) else none)).map
        Prod.snd).sum ≤ (m.map Prod.snd).sum / df := by
  induction m with
  | nil => simp
  | cons p rest ih =>
    have hp0 : 0 ≤ p.2 := hpos p (List.mem_cons_self _ _)
    have ihr := ih (fun q hq => hpos q (List.mem_cons_of_mem _ hq))
    by_cases hc : p.2 > df * mo
    · rw [List.filterMap_cons_some (by rw [if_pos hc])]
      simp only [List.map_cons, List.sum_cons]
      rw [add_div]
      linarith
    · rw [List.filterMap_cons_none (by rw [if_neg hc])]
      simp only [List.map_cons, List.sum_cons]
      rw [add_div]
      have hd : (0 : ℚ) ≤ p.2 / df := div_nonneg hp0 (le_of_lt hdf)
      linarith

/-- The reachability invariant tying the score sum to totalScore. -/
def BackendInv (b : Backend) : Prop :=
  (∀ p ∈ b.scores, 0 ≤ p.2) ∧ sumScores b ≤ b.totalScore ∧ b.decayFactor = 9 / 8

theorem backendInv_applyOp (b : Backend) (op : SamplerOp) (h : BackendInv b) :
    BackendInv (applyOp b op) := by
  obtain ⟨hpos, hsum, hdf⟩ := h
  cases op with
  | count sig =>
    refine ⟨bumpScore_nonneg b.scores sig hpos, ?_, hdf⟩
    show ((bumpScore b.scores sig).map Prod.snd).sum ≤ b.totalScore + 1
    rw [bumpScore_sum]
    exact add_le_add_right hsum 1
  | sample => exact ⟨hpos, hsum, hdf⟩
  | decay =>
    refine ⟨?_, ?_, hdf⟩
    · intro p hp
      obtain ⟨q, hq, hg⟩ := List.mem_filterMap.mp hp
      by_cases hc : q.2 > b.decayFactor * minSignatureScoreOffset
      · rw [if_pos hc] at hg
        cases hg
        have hq0 := hpos q hq
        show (0 : ℚ) ≤ q.2 / b.decayFactor
        rw [hdf]
        positivity
      · rw [if_neg hc] at hg
        cases hg
    · show ((b.scores.filterMap (fun p =>
          if p.2 > b.decayFactor * minSignatureScoreOffset
          then some (p.1, p.2 / b.decayFactor) else none)).map Prod.snd).sum
        ≤ b.totalScore / b.decayFactor
      have hdfpos : (0 : ℚ) < b.decayFactor := by
        rw [hdf]
        norm_num
      have hle := sum_filterMap_decay_le b.decayFactor minSignatureScoreOffset hdfpos
        b.scores hpos
      have h2 : (b.scores.map Prod.snd).sum / b.decayFactor
          ≤ b.totalScore / b.decayFactor :=
        (div_le_div_iff_of_pos_right hdfpos).mpr hsum
      exact le_trans hle h2

theorem backendInv_applyOps (ops : List SamplerOp) :
    ∀ b : Backend, BackendInv b → BackendInv (applyOps b ops) := by
  induction ops with
  | nil => intro b h; exact h
  | cons op rest ih =>
    intro b h
    exact ih (applyOp b op) (backendInv_applyOp b op h)

theorem backendInv_newBackend (dp : ℚ) : BackendInv (newBackend dp) := by
  refine ⟨?_, ?_, rfl⟩
  · intro p hp
    simp [newBackend] at hp
  · simp [sumScores, newBackend]

/-- C5 amended: in every backend state reachable from NewBackend by
CountSignature, CountSample and DecayScore calls (so in particular right
after any decay tick), the sum of the signature scores is at most totalScore;
the exact equality claimed by the spec is broken by eviction, which drops a
positive score from the sum while totalScore keeps its decayed share. -/
theorem sumScores_le_totalScore (dp : ℚ) (ops : List SamplerOp) :
    sumScores (applyOps (newBackend dp) ops) ≤ (applyOps (newBackend dp) ops).totalScore :=
  (backendInv_applyOps ops (newBackend dp) (backendInv_newBackend dp)).2.1

set_option maxRecDepth 4000 in
/-- C5 counterexample: after one CountSignature and forty DecayScore ticks the
scores map is empty, so the score sum is 0, while totalScore = (8/9)^40,
which still exceeds 1/200; the claimed equality fails by far more than any
floating-point tolerance. -/
theorem totalScore_ne_sumScores_after_eviction :
    sumScores (applyOps (newBackend 1)
        (SamplerOp.count 0 :: List.replicate 40 SamplerOp.decay)) = 0
    ∧ sumScores (applyOps (newBackend 1)
          (SamplerOp.count 0 :: List.replicate 40 SamplerOp.decay)) + 1 / 200
        ≤ (applyOps (newBackend 1)
            (SamplerOp.count 0 :: List.replicate 40 SamplerOp.decay)).totalScore := by
  norm_num [applyOps, applyOp, newBackend, countSignature, decayScore, bumpScore,
    sumScores, minSignatureScoreOffset, List.replicate, List.foldl,
    List.filterMap_cons, List.filterMap_nil]

/-- The reachability invariant for the sampled-score claims. -/
def SampledInv (dp : ℚ) (b : Backend) : Prop :=
  0 ≤ b.sampledScore ∧ b.decayFactor = 9 / 8
    ∧ b.countScaleFactor = (9 / 8 : ℚ) / (9 / 8 - 1) * dp

theorem sampledInv_applyOp (dp : ℚ) (b : Backend) (op : SamplerOp)
    (h : SampledInv dp b) : SampledInv dp (applyOp b op) := by
  obtain ⟨hs, hdf, hcsf⟩ := h
  cases op with
  | count sig => exact ⟨hs, hdf, hcsf⟩
  | sample =>
    refine ⟨?_, hdf, hcsf⟩
    show (0 : ℚ) ≤ b.sampledScore + 1
    linarith
  | decay =>
    refine ⟨?_, hdf, hcsf⟩
    show (0 : ℚ) ≤ b.sampledScore / b.decayFactor
    rw [hdf]
    positivity

theorem sampledInv_applyOps (dp : ℚ) (ops : List SamplerOp) :
    ∀ b : Backend, SampledInv dp b → SampledInv dp (applyOps b ops) := by
  induction ops with
  | nil => intro b h; exact h
  | cons op rest ih =>
    intro b h
    exact ih (applyOp b op) (sampledInv_applyOp dp b op h)

/-- C8: with a positive decayPeriod, GetUpperSampledScore is at least
GetSampledScore in every backend state reachable from NewBackend. -/
theorem upperSampledScore_ge (dp : ℚ) (hdp : 0 < dp) (ops : List SamplerOp) :
    getSampledScore (applyOps (newBackend dp) ops)
      ≤ getUpperSampledScore (applyOps (newBackend dp) ops) := by
  have h0 : SampledInv dp (newBackend dp) := ⟨le_refl 0, rfl, rfl⟩
  obtain ⟨hs, hdf, hcsf⟩ := sampledInv_applyOps dp ops (newBackend dp) h0
  have hcsf0 : (0 : ℚ) < (applyOps (newBackend dp) ops).countScaleFactor := by
    rw [hcsf]
    have h9 : ((9 : ℚ) / 8) / (9 / 8 - 1) = 9 := by norm_num
    rw [h9]
    linarith
  have hss : 0 ≤ getSampledScore (applyOps (newBackend dp) ops) :=
    div_nonneg hs (le_of_lt hcsf0)
  rw [getUpperSampledScore, hdf]
  linarith

theorem upperSampledScore_ge_witness :
    getSampledScore (applyOps (newBackend 1) [SamplerOp.sample])
      ≤ getUpperSampledScore (applyOps (newBackend 1) [SamplerOp.sample]) :=
  upperSampledScore_ge 1 (by norm_num) [SamplerOp.sample]

/-- A sublayer value (metric, tag name, tag value, numeric value), per spec
section 4.C; the numeric values at stake are exact integers. -/
structure SublayerValue where
  metric : String
  tagName : String
  tagValue : String
  value : Int
  deriving DecidableEq, Repr

/-- Modelled from the spec: model.Trace.GetRoot is not in src/; section 3
defines the root as the span with ParentID = 0, the earliest-start one winning
when there are several. -/
def getRoot (tr : List Span) : Option Span :=
  (tr.filter (fun s => decide (s.parentID = 0))).foldl
    (fun acc s =>
      match acc with
      | none => some s
      | some r => if s.start < r.start then some s else some r)
    none

/-- The parent of a span inside a trace: the span carrying its ParentID. -/
def parentOf (tr : List Span) (s : Span) : Option Span :=
  tr.find? (fun p => decide (p.spanID = s.parentID))

/-- Add v to the binding of k, keeping first-insertion order, creating the
binding when absent. -/
def addVal : List (String × Int) → String → Int → List (String × Int)
  | [], k, v => [(k, v)]
  | p :: rest, k, v => if p.1 = k then (p.1, p.2 + v) :: rest else p :: addVal rest k v

/-- Modelled from the spec: model.ComputeSublayers is not in src/. Section 4.C
defines the by-service and by-type families as the exclusive duration per
service and per type, and the src test model/sublayers_test.go pins the
expected values. On the properly nested traces at stake the exclusive
duration is obtained by attributing each span duration to its own attribute
value and subtracting it from the attribute value of its parent; spans whose
attribute is empty are skipped, matching the absence of an empty-type entry
among the test expectations. -/
def computeDurationsBy (attr : Span → String) (tr : List Span) : List (String × Int) :=
  tr.foldl
    (fun acc s =>
      if attr s = "" then acc
      else
        let acc1 := addVal acc (attr s) s.duration
        match parentOf tr s with
        | some p => if attr p = "" then acc1 else addVal acc1 (attr p) (-s.duration)
        | none => acc1)
    []

/-- Modelled from the spec: ComputeSublayers emits the by-service family, the
by-type family, and the span count of the trace. -/
def computeSublayers (tr : List Span) : List SublayerValue :=
  ((computeDurationsBy (fun s => s.service) tr).map
      (fun p => SublayerValue.mk "_sublayers.duration.by_service" "sublayer_service" p.1 p.2))
    ++ ((computeDurationsBy (fun s => s.spanType) tr).map
      (fun p => SublayerValue.mk "_sublayers.duration.by_type" "sublayer_type" p.1 p.2))
    ++ [SublayerValue.mk "_sublayers.span_count" "" "" (tr.length : Int)]

/-- Modelled from the spec: SetSublayersOnSpan writes each value into the
metrics map of the given span under the key metric.tagName:tagValue, and the
untagged span count under the bare metric name. -/
def setSublayersOnSpan (s : Span) (values : List SublayerValue) : Span :=
  { s with metrics := s.metrics ++ values.map (fun v =>
      (if v.tagName = "" then v.metric
       else v.metric ++ "." ++ v.tagName ++ ":" ++ v.tagValue, v.value)) }

/-- The test pins the sublayers on the root returned by GetRoot, mutating it
in place inside the trace; the root is identified by its span id and the
other spans are untouched. -/
def applySublayersToRoot (tr : List Span) : List Span :=
  match getRoot tr with
  | none => tr
  | some r => tr.map (fun s =>
      if s.spanID = r.spanID then setSublayersOnSpan s (computeSublayers tr) else s)

/-- The five-span nested trace of scenario S1 / TestSublayerNested, over the
wall-clock base now exactly as in the test. -/
def s1Trace (now : Int) : List Span :=
  [ { traceID := 1, spanID := 1, parentID := 0, start := now + 42,
      duration := 1000000000, service := "mcnulty", spanType := "web", metrics := [] },
    { traceID := 1, spanID := 2, parentID := 1, start := now + 100,
      duration := 200000000, service := "mcnulty", spanType := "sql", metrics := [] },
    { traceID := 1, spanID := 3, parentID := 2, start := now + 150,
      duration := 199999000, service := "master-db", spanType := "sql", metrics := [] },
    { traceID := 1, spanID := 4, parentID := 1, start := now + 500000000,
      duration := 500000, service := "redis", spanType := "redis", metrics := [] },
    { traceID := 1, spanID := 5, parentID := 1, start := now + 700000000,
      duration := 700000, service := "mcnulty", spanType := "", metrics := [] } ]

set_option maxHeartbeats 2000000 in
/-- C7 amended: on the S1 nested trace, ComputeSublayers yields by-service
values master-db = 199999000, mcnulty = 799501000 (= 1e9 - 199999000 - 5e5,
as the src test asserts, instead of the 800000500 stated by the claim),
redis = 500000; by-type values web = 799500000 (= 1e9 - 2e8 - 5e5, instead of
the 799999500 stated by the claim), sql = 200000000, redis = 500000; span
count 5; and after SetSublayersOnSpan on the root only the root metrics map
is populated, the other spans keeping their untouched empty maps. -/
theorem sublayers_s1 (now : Int) :
    computeSublayers (s1Trace now) =
      [ SublayerValue.mk "_sublayers.duration.by_service" "sublayer_service"
          "mcnulty" 799501000,
        SublayerValue.mk "_sublayers.duration.by_service" "sublayer_service"
          "master-db" 199999000,
        SublayerValue.mk "_sublayers.duration.by_service" "sublayer_service"
          "redis" 500000,
        SublayerValue.mk "_sublayers.duration.by_type" "sublayer_type" "web" 799500000,
        SublayerValue.mk "_sublayers.duration.by_type" "sublayer_type" "sql" 200000000,
        SublayerValue.mk "_sublayers.duration.by_type" "sublayer_type" "redis" 500000,
        SublayerValue.mk "_sublayers.span_count" "" "" 5 ]
    ∧ (applySublayersToRoot (s1Trace now)).map Span.metrics =
      [ [ ("_sublayers.duration.by_service.sublayer_service:mcnulty", 799501000),
          ("_sublayers.duration.by_service.sublayer_service:master-db", 199999000),
          ("_sublayers.duration.by_service.sublayer_service:redis", 500000),
          ("_sublayers.duration.by_type.sublayer_type:web", 799500000),
          ("_sublayers.duration.by_type.sublayer_type:sql", 200000000),
          ("_sublayers.duration.by_type.sublayer_type:redis", 500000),
          ("_sublayers.span_count", 5) ],
        [], [], [], [] ] := by
  exact ⟨rfl, rfl⟩

/-- C7 counterexample: on the S1 trace the only by-type entry for web carries
the value 799500000 = 1e9 - 2e8 - 5e5 asserted by the src test, not the
799999500 stated by the claim, and the only by-service entry for mcnulty
carries 799501000 = 1e9 - 199999000 - 5e5, not the 800000500 of the claim. -/
theorem sublayers_s1_claimed_values_wrong :
    (computeSublayers (s1Trace 0)).filter
        (fun v => decide (v.metric = "_sublayers.duration.by_type" ∧ v.tagValue = "web"))
      = [SublayerValue.mk "_sublayers.duration.by_type" "sublayer_type" "web" 799500000]
    ∧ (computeSublayers (s1Trace 0)).filter
        (fun v => decide (v.metric = "_sublayers.duration.by_service"
          ∧ v.tagValue = "mcnulty"))
      = [SublayerValue.mk "_sublayers.duration.by_service" "sublayer_service"
          "mcnulty" 799501000]
    ∧ (799500000 : Int) ≠ 799999500 ∧ (799501000 : Int) ≠ 800000500 := by
  exact ⟨rfl, rfl, by decide, by decide⟩
